import Mathlib

/-!
Verification of the dirserver path sandbox, audio-transcode pipeline and
streaming tar composer against their natural-language specification.

The Python sources (`app.py`, `utils.py`) are shallowly embedded below:
pure helpers become Lean functions over explicit data, filesystem state is
an explicit oracle `FS`, the `opus_adder` generator becomes a function
producing the list of observable events it yields, and `abort(...)` calls
become typed errors.  The `tarfile_stream` module is not part of the
sources; where a claim depends on it, the relevant behaviour is modelled
from the spec and marked as such in its doc comment.
-/

namespace Dirserver

/-- A path component (one name between slashes). -/
abbrev Name := String

/-- An absolute filesystem path, as its list of components below `/`
(`/srv/data` is `["srv", "data"]`).  This matches `pathlib.PurePath.parts`
minus the leading `/` anchor, which can never start with `.`. -/
abbrev AbsPath := List Name

/-- One filesystem object, as far as the embedded code observes it. -/
inductive FSEntry where
  | file
  | dir
  /-- A symbolic link; `isAbs` tells whether the stored target is absolute,
  `target` is the target's component list. -/
  | symlink (isAbs : Bool) (target : List Name)
deriving DecidableEq

/-- The filesystem state: what (if anything) sits at each absolute path.
`none` models a nonexistent path. -/
abbrev FS := AbsPath → Option FSEntry

/-- Models Python `part.startswith('.')` for a single path component. -/
def startsWithDot (n : Name) : Bool :=
  match n.data with
  | [] => false
  | c :: _ => c = '.'

/-! ### `pathlib.Path.resolve()` (strict=False)

`Path.resolve` walks the path components left to right, skipping empty and
`.` components, stripping the last resolved component on `..`, and chasing
symlinks as it meets them (restarting at the target, with the remaining
components appended). Resolution of a symlink chain that never bottoms out
raises `RuntimeError`; Python detects this with a seen-set, modelled here
by a fuel bound on the number of symlink jumps — a cyclic chain exhausts
any fuel.  Nonexistent components are kept verbatim (strict=False). -/

/-- Walk components until the first symlink jump (or the end).
`Sum.inl done` means resolution finished with result `done`;
`Sum.inr (cur, rest)` means a symlink was hit and resolution must restart
from `cur` with components `rest`. -/
def walkToLink (fs : FS) : AbsPath → List Name → Sum AbsPath (AbsPath × List Name)
  | cur, [] => Sum.inl cur
  | cur, name :: rest =>
    if name = "" ∨ name = "." then walkToLink fs cur rest
    else if name = ".." then walkToLink fs cur.dropLast rest
    else
      match fs (cur ++ [name]) with
      | some (.symlink isAbs target) =>
          Sum.inr (if isAbs then [] else cur, target ++ rest)
      | _ => walkToLink fs (cur ++ [name]) rest

/-- Resolution loop: each symlink jump consumes one unit of fuel; running
out of fuel models `RuntimeError` on symlink recursion. -/
def resolveFrom (fs : FS) : Nat → AbsPath → List Name → Except Unit AbsPath
  | fuel, cur, rest =>
    match walkToLink fs cur rest with
    | Sum.inl done => Except.ok done
    | Sum.inr (cur2, rest2) =>
      match fuel with
      | 0 => Except.error ()
      | fuel2 + 1 => resolveFrom fs fuel2 cur2 rest2

/-- Models `Path(p).resolve()` on an absolute component list `p`:
`Except.error ()` is the `RuntimeError` raised on symlink recursion. -/
def pyResolve (fs : FS) (fuel : Nat) (p : List Name) : Except Unit AbsPath :=
  resolveFrom fs fuel [] p

/-- Models membership in `pathlib.Path.parents`: the proper ancestors of a
path, i.e. all proper component-list initial segments. -/
def pyParents (p : AbsPath) : List AbsPath :=
  (List.range p.length).map fun k => p.take k

/-- The rejections the sandbox can raise (`abort(400/403/404)` in
`app.py`). -/
inductive SandboxError where
  | malformedPath
  | outsideSandbox
  | notFound
  | hiddenPathForbidden
deriving DecidableEq

/-- The HTTP status each rejection is surfaced as in `app.py`. -/
def http_status : SandboxError → Nat
  | .malformedPath => 400
  | .outsideSandbox => 403
  | .notFound => 404
  | .hiddenPathForbidden => 403

/-- Embeds `ensure_beneath` (app.py lines 62-71): join the candidate onto
the base, resolve, map symlink-recursion `RuntimeError` to `abort(400)`,
reject with `abort(403)` unless the base is among the resolved path's
proper ancestors. -/
def ensure_beneath (fs : FS) (fuel : Nat) (base_path p : List Name) :
    Except SandboxError AbsPath :=
  match pyResolve fs fuel (base_path ++ p) with
  | .error _ => .error .malformedPath
  | .ok resolved =>
    if base_path ∈ pyParents resolved then .ok resolved
    else .error .outsideSandbox

/-- Embeds `SafePathConverter.to_python` (app.py lines 76-82):
`ensure_in_base_path`, then `abort(404)` if the resolved path does not
exist, then — when hidden entries are excluded — `abort(403)` if any
component of the resolved path (the full absolute `p.parts`) starts with
a dot. -/
def SafePathConverter_to_python (fs : FS) (fuel : Nat) (base_path : List Name)
    (excludeHidden : Bool) (value : List Name) : Except SandboxError AbsPath :=
  match ensure_beneath fs fuel base_path value with
  | .error e => .error e
  | .ok p =>
    if (fs p).isNone then .error .notFound
    else if excludeHidden && p.any startsWithDot then .error .hiddenPathForbidden
    else .ok p

/-- The spec's "Sandbox Root is a strict ancestor of the resolved path":
the resolved path extends the base by at least one component. -/
def strictlyBeneath (base r : AbsPath) : Prop :=
  ∃ t, t ≠ [] ∧ r = base ++ t

theorem strictlyBeneath_iff_take (base r : AbsPath) :
    strictlyBeneath base r ↔ r.take base.length = base ∧ base.length < r.length := by
  constructor
  · rintro ⟨t, ht, rfl⟩
    refine ⟨List.take_left base t, ?_⟩
    simp [List.length_append, List.length_pos.mpr ht]
  · rintro ⟨htake, hlt⟩
    refine ⟨r.drop base.length, ?_, ?_⟩
    · intro h
      have := List.drop_eq_nil_iff.mp h
      omega
    · conv_lhs => rw [← List.take_append_drop base.length r]
      rw [htake]

/-- Membership in the embedded `Path.parents` is exactly the spec's
strict-ancestor relation. -/
theorem mem_pyParents_iff (base r : AbsPath) :
    base ∈ pyParents r ↔ strictlyBeneath base r := by
  rw [strictlyBeneath_iff_take]
  unfold pyParents
  simp only [List.mem_map, List.mem_range]
  constructor
  · rintro ⟨k, hk, rfl⟩
    have hlen : (List.take k r).length = k := by
      simp [List.length_take]
      omega
    exact ⟨by rw [hlen], by rw [hlen]; exact hk⟩
  · rintro ⟨htake, hlt⟩
    exact ⟨base.length, hlt, htake⟩

/-! ### Concrete filesystems used as witnesses -/

/-- Sandbox root `/srv/data`; `/srv/data/evil` is a symlink to `/etc`,
`/srv/data/music/a.flac` is an ordinary file, `/etc/passwd` exists but is
outside the sandbox. -/
def fsEscape : FS := fun p =>
  if p = ["srv"] then some .dir
  else if p = ["srv", "data"] then some .dir
  else if p = ["srv", "data", "evil"] then some (.symlink true ["etc"])
  else if p = ["srv", "data", "music"] then some .dir
  else if p = ["srv", "data", "music", "a.flac"] then some .file
  else if p = ["etc"] then some .dir
  else if p = ["etc", "passwd"] then some .file
  else none

/-- Sandbox root `/srv`; `/srv/loop` is a symlink to itself. -/
def fsCycle : FS := fun p =>
  if p = ["srv"] then some .dir
  else if p = ["srv", "loop"] then some (.symlink true ["srv", "loop"])
  else none

/-- A symlink cycle exhausts every fuel bound: resolution of `/srv/loop`
cannot complete however much fuel it is given (the Python implementation
raises `RuntimeError` there). -/
theorem fsCycle_never_resolves (fuel : Nat) :
    pyResolve fsCycle fuel ["srv", "loop"] = .error () := by
  induction fuel with
  | zero => rfl
  | succ n ih =>
    show resolveFrom fsCycle (n + 1) [] ["srv", "loop"] = .error ()
    rw [resolveFrom]
    have hw : walkToLink fsCycle [] ["srv", "loop"] =
        Sum.inr ([], ["srv", "loop"]) := rfl
    rw [hw]
    exact ih

/-!  ## C1 — containment after full resolution -/

/-- C1: for every candidate whose join onto the sandbox root resolves
(symlinks included) to `r`, `ensure_beneath` returns `r` exactly when the
root is a strict ancestor of `r`; otherwise it fails with the
`OutsideSandbox` rejection, surfaced as HTTP 403, and it never returns a
path that is not strictly beneath the root. -/
theorem C1_resolution_contained (fs : FS) (fuel : Nat) (base cand r : List Name)
    (hres : pyResolve fs fuel (base ++ cand) = .ok r) :
    (strictlyBeneath base r → ensure_beneath fs fuel base cand = .ok r) ∧
    (¬ strictlyBeneath base r →
      ensure_beneath fs fuel base cand = .error .outsideSandbox) ∧
    (∀ q, ensure_beneath fs fuel base cand = .ok q → strictlyBeneath base q) ∧
    http_status .outsideSandbox = 403 := by
  refine ⟨?_, ?_, ?_, rfl⟩
  · intro hsb
    unfold ensure_beneath
    rw [hres]
    simp [(mem_pyParents_iff base r).mpr hsb]
  · intro hsb
    unfold ensure_beneath
    rw [hres]
    simp only [if_neg (fun h => hsb ((mem_pyParents_iff base r).mp h))]
  · intro q hq
    by_cases hsb : strictlyBeneath base r
    · have h1 : ensure_beneath fs fuel base cand = .ok r := by
        unfold ensure_beneath
        rw [hres]
        simp [(mem_pyParents_iff base r).mpr hsb]
      rw [h1] at hq
      cases hq
      exact hsb
    · have h2 : ensure_beneath fs fuel base cand = .error .outsideSandbox := by
        unfold ensure_beneath
        rw [hres]
        simp only [if_neg (fun h => hsb ((mem_pyParents_iff base r).mp h))]
      rw [h2] at hq
      cases hq

/-- C1 witness: under `fsEscape`, the candidate `evil/passwd` resolves
through the symlink to `/etc/passwd`, outside the root, and is rejected
with `OutsideSandbox`; the candidate `music/a.flac` resolves strictly
beneath the root and is returned. -/
theorem C1_witness :
    ensure_beneath fsEscape 8 ["srv", "data"] ["evil", "passwd"] =
      .error .outsideSandbox ∧
    ensure_beneath fsEscape 8 ["srv", "data"] ["music", "a.flac"] =
      .ok ["srv", "data", "music", "a.flac"] := by
  constructor
  · refine (C1_resolution_contained fsEscape 8 ["srv", "data"] ["evil", "passwd"]
      ["etc", "passwd"] rfl).2.1 ?_
    intro h
    have := (strictlyBeneath_iff_take _ _).mp h
    revert this
    decide
  · refine (C1_resolution_contained fsEscape 8 ["srv", "data"] ["music", "a.flac"]
      ["srv", "data", "music", "a.flac"] rfl).1 ?_
    exact (strictlyBeneath_iff_take _ _).mpr (by decide)

/-!  ## C2 — symlink-recursion failure is MalformedPath, decided first -/

/-- C2: when resolution cannot complete (the symlink-recursion
`RuntimeError`), `ensure_beneath` fails with `MalformedPath`, never with
the containment rejection, and the two failures carry the distinct HTTP
statuses 400 and 403. -/
theorem C2_malformed_before_containment (fs : FS) (fuel : Nat)
    (base cand : List Name)
    (hres : pyResolve fs fuel (base ++ cand) = .error ()) :
    ensure_beneath fs fuel base cand = .error .malformedPath ∧
    ensure_beneath fs fuel base cand ≠ .error .outsideSandbox ∧
    http_status .malformedPath = 400 ∧ http_status .outsideSandbox = 403 := by
  have h : ensure_beneath fs fuel base cand = .error .malformedPath := by
    unfold ensure_beneath
    rw [hres]
  refine ⟨h, ?_, rfl, rfl⟩
  rw [h]
  intro hcontra
  cases hcontra

/-- C2 witness: the self-referential symlink `/srv/loop` makes resolution
fail for the concrete fuel bound 8, and the candidate is rejected with
`MalformedPath`. -/
theorem C2_witness :
    ensure_beneath fsCycle 8 ["srv"] ["loop"] = .error .malformedPath := by
  exact (C2_malformed_before_containment fsCycle 8 ["srv"] ["loop"]
    (fsCycle_never_resolves 8)).1

/-!  ## C3 — hidden-path policy -/

/-- Sandbox root `/srv/.d` (the root's own last component is hidden);
`/srv/.d/file` is an ordinary, non-hidden file inside it. -/
def fsHiddenBase : FS := fun p =>
  if p = ["srv"] then some .dir
  else if p = ["srv", ".d"] then some .dir
  else if p = ["srv", ".d", "file"] then some .file
  else none

/-- Sandbox root `/srv`, containing the hidden file `/srv/.hid`. -/
def fsHiddenEntry : FS := fun p =>
  if p = ["srv"] then some .dir
  else if p = ["srv", ".hid"] then some .file
  else none

/-- C3 counterexample: with the hidden-path policy enabled and the sandbox
root `/srv/.d`, the candidate `file` — whose root-relative components
(`drop 2` of the resolved path) contain nothing hidden — is nevertheless
rejected with `HiddenPathForbidden`, because `SafePathConverter.to_python`
scans all components of the absolute resolved path, the root's own
included. -/
theorem C3_counterexample :
    SafePathConverter_to_python fsHiddenBase 8 ["srv", ".d"] true ["file"] =
      .error .hiddenPathForbidden ∧
    ((["srv", ".d", "file"] : List Name).drop 2).any startsWithDot = false :=
  ⟨rfl, rfl⟩

/-- C3 amended: when the hidden-path policy is enabled and the candidate
has passed containment and existence, resolution fails with
`HiddenPathForbidden` (HTTP 403) iff some component of the full absolute
resolved path — the sandbox root's own components included — begins with
`.`; otherwise the resolved path is returned. -/
theorem C3_hidden_on_absolute_parts (fs : FS) (fuel : Nat)
    (base value p : List Name)
    (hok : ensure_beneath fs fuel base value = .ok p)
    (hex : (fs p).isSome = true) :
    (SafePathConverter_to_python fs fuel base true value =
        .error .hiddenPathForbidden ↔ p.any startsWithDot = true) ∧
    (SafePathConverter_to_python fs fuel base true value = .ok p ↔
        p.any startsWithDot = false) ∧
    http_status .hiddenPathForbidden = 403 := by
  have hnn : (fs p).isNone = false := by
    cases h : fs p
    · rw [h] at hex
      cases hex
    · rfl
  unfold SafePathConverter_to_python
  rw [hok]
  simp only [hnn, Bool.false_eq_true, if_false, Bool.true_and]
  cases h : p.any startsWithDot
  · simp [http_status]
  · simp [http_status]

/-- C3 witness: with root `/srv`, the hidden entry `/srv/.hid` is rejected
with `HiddenPathForbidden` by the amended rule. -/
theorem C3_witness :
    SafePathConverter_to_python fsHiddenEntry 8 ["srv"] true [".hid"] =
      .error .hiddenPathForbidden := by
  exact (C3_hidden_on_absolute_parts fsHiddenEntry 8 ["srv"] [".hid"]
    ["srv", ".hid"] rfl rfl).1.mpr rfl

/-!  ## Audio container sniffing (`utils.py`) -/

/-- The bytes `b'fLaC'`. -/
def fLaC_sig : List Nat := [0x66, 0x4C, 0x61, 0x43]
/-- The bytes `b'RIFF'`. -/
def RIFF_sig : List Nat := [0x52, 0x49, 0x46, 0x46]
/-- The bytes `b'WAVE'`. -/
def WAVE_sig : List Nat := [0x57, 0x41, 0x56, 0x45]
/-- The bytes `b'FORM'`. -/
def FORM_sig : List Nat := [0x46, 0x4F, 0x52, 0x4D]
/-- The bytes `b'AIFF'`. -/
def AIFF_sig : List Nat := [0x41, 0x49, 0x46, 0x46]
/-- The bytes `b'OggS'`, the Ogg (target container) magic — recognised by
none of the checks below. -/
def OggS_sig : List Nat := [0x4F, 0x67, 0x67, 0x53]

/-- Embeds `utils.mime_type_for_audio_data`: `data[:4]` and `data[8:12]`
are `take 4` and `(drop 8).take 4` (Python slices shorten on short input,
so a short list simply fails the comparisons, as in the source). -/
def mime_type_for_audio_data (data : List Nat) : Option String :=
  if data.take 4 = fLaC_sig then some "audio/flac"
  else if data.take 4 = RIFF_sig ∧ (data.drop 8).take 4 = WAVE_sig then
    some "audio/basic"
  else if data.take 4 = FORM_sig ∧ (data.drop 8).take 4 = AIFF_sig then
    some "audio/x-aiff"
  else none

/-- Embeds `utils.AUDIO_BYTES_NEEDED`. -/
def AUDIO_BYTES_NEEDED : Nat := 12

/-- Embeds `utils.mime_type_for_audio_path`: the file is modelled by its
byte content; the source reads only the first `AUDIO_BYTES_NEEDED` bytes
and sniffs those. -/
def mime_type_for_audio_path (content : List Nat) : Option String :=
  mime_type_for_audio_data (content.take AUDIO_BYTES_NEEDED)

/-- Embeds `utils.path_is_opusenc_encodable` (an alias of
`mime_type_for_audio_path` in the source), as a boolean: Python
truthiness of the returned optional MIME type. -/
def path_is_opusenc_encodable (content : List Nat) : Bool :=
  (mime_type_for_audio_path content).isSome

/-- What the `opus` endpoint does with a source file (app.py lines
249-263): transcode when `path_is_opusenc_encodable`, otherwise serve the
bytes as they are (`index_dir(path)`). -/
inductive OpusAction where
  | transcode
  | passthrough
deriving DecidableEq

/-- The eligibility decision of the `opus` endpoint, a function of the
file content alone. -/
def opus_transcode_decision (content : List Nat) : OpusAction :=
  if path_is_opusenc_encodable content then .transcode else .passthrough

/-- Sniffing the first 12 bytes decides exactly as sniffing the whole
content: the checks only consult bytes 0-3 and 8-11. -/
theorem mime_type_take12 (content : List Nat) :
    mime_type_for_audio_data (content.take AUDIO_BYTES_NEEDED) =
      mime_type_for_audio_data content := by
  unfold mime_type_for_audio_data AUDIO_BYTES_NEEDED
  have h1 : (content.take 12).take 4 = content.take 4 := by
    rw [List.take_take]
    norm_num
  have h2 : ((content.take 12).drop 8).take 4 = (content.drop 8).take 4 := by
    rw [List.drop_take, List.take_take]
    norm_num
  rw [h1, h2]

/-!  ## C4 — transcode eligibility by content sniffing -/

/-- C4: transcode eligibility is a function of the file's first 12 bytes
only (the embedded decision takes nothing but content): the file is
transcoded exactly when its bytes begin with `fLaC`, or begin with `RIFF`
with bytes 8-12 equal to `WAVE`, or begin with `FORM` with bytes 8-12
equal to `AIFF`; all other content — in particular anything already in
the Ogg target container, whose magic `OggS` matches none of the three
signatures — is passed through untouched. -/
theorem C4_eligibility_by_sniffing (content rest : List Nat) :
    (opus_transcode_decision content = .transcode ↔
      (content.take 4 = fLaC_sig ∨
       (content.take 4 = RIFF_sig ∧ (content.drop 8).take 4 = WAVE_sig) ∨
       (content.take 4 = FORM_sig ∧ (content.drop 8).take 4 = AIFF_sig))) ∧
    (opus_transcode_decision content = .passthrough ↔
      ¬ (content.take 4 = fLaC_sig ∨
       (content.take 4 = RIFF_sig ∧ (content.drop 8).take 4 = WAVE_sig) ∨
       (content.take 4 = FORM_sig ∧ (content.drop 8).take 4 = AIFF_sig))) ∧
    opus_transcode_decision (OggS_sig ++ rest) = .passthrough := by
  have hiff : ∀ c : List Nat, opus_transcode_decision c = .transcode ↔
      (c.take 4 = fLaC_sig ∨
       (c.take 4 = RIFF_sig ∧ (c.drop 8).take 4 = WAVE_sig) ∨
       (c.take 4 = FORM_sig ∧ (c.drop 8).take 4 = AIFF_sig)) := by
    intro c
    unfold opus_transcode_decision path_is_opusenc_encodable
      mime_type_for_audio_path
    rw [mime_type_take12]
    unfold mime_type_for_audio_data
    by_cases h1 : c.take 4 = fLaC_sig
    · simp [h1]
    · by_cases h2 : c.take 4 = RIFF_sig ∧ (c.drop 8).take 4 = WAVE_sig
      · simp [h1, h2, (show RIFF_sig ≠ fLaC_sig by decide)]
      · by_cases h3 : c.take 4 = FORM_sig ∧ (c.drop 8).take 4 = AIFF_sig
        · simp [h1, h2, h3, (show FORM_sig ≠ fLaC_sig by decide),
            (show ¬ (FORM_sig = RIFF_sig ∧ AIFF_sig = WAVE_sig) by decide)]
        · simp [h1, h2, h3]
  refine ⟨hiff content, ?_, ?_⟩
  · rw [← hiff content]
    cases h : opus_transcode_decision content <;> simp [h]
  · rcases h : opus_transcode_decision (OggS_sig ++ rest) with _ | _
    · exfalso
      have := (hiff (OggS_sig ++ rest)).mp h
      have htake : (OggS_sig ++ rest).take 4 = OggS_sig := by
        simp [OggS_sig]
      rw [htake] at this
      rcases this with h | ⟨h, _⟩ | ⟨h, _⟩ <;> revert h <;> decide
    · rfl

/-!  ## The directory walk of `opus_adder` (app.py lines 215-245)

`opus_adder` is a generator; its observable behaviour is the sequence of
events it drives: spawning `opusenc` on a source file, waiting for the
subprocess to finish (spooling its whole output to the temporary file),
and yielding a member's tar header block and content into the stream
(`tar.add` under the `TAR_FILTER` predicate, abstracted as `keep`).

Directory trees are a mutual inductive (tree/forest) so that the trace
function is structurally recursive.  `path.iterdir()` produces children
in the stored forest order; the source sorts that listing by name, so the
concrete trees below are written with name-sorted children, and every
quantified theorem about the trace holds for all child orders, the sorted
one included.  A directory whose `readable` flag is false models one on
which `iterdir()` raises `PermissionError`: the source has no handler
around the loop, so the walk stops there (the flag in the result below).
The source's top-level single-file case (`tar.add(path, ...)`, which uses
the path itself as the archive name) is modelled with the same
arcname-based naming as loop entries; the claims only concern walks over
directories. -/

mutual
/-- A filesystem subtree: a file with its byte content, or a directory
with a readability flag and its children. -/
inductive FSTree where
  | file (name : Name) (content : List Nat)
  | dir (name : Name) (readable : Bool) (children : FSForest)
deriving DecidableEq
/-- A list of sibling subtrees (mutual with `FSTree`). -/
inductive FSForest where
  | nil
  | cons (t : FSTree) (rest : FSForest)
deriving DecidableEq
end

/-- Index of the last `.` in a component's characters, if any (Python
`name.rfind('.')`, with `none` for "not found"). -/
def lastDotIdx (cs : List Char) : Option Nat :=
  match cs.reverse.findIdx? (fun c => c = '.') with
  | none => none
  | some k => some (cs.length - 1 - k)

/-- Models `pathlib.PurePath.with_suffix('.opus')` on one name: the
current suffix runs from the last dot, provided that dot is neither the
leading character nor the final one; it is replaced by (or, when there is
no suffix, the name is extended with) `.opus`. -/
def py_with_suffix_opus_name (nm : Name) : Name :=
  let cs := nm.data
  let keep :=
    match lastDotIdx cs with
    | none => cs
    | some i => if 0 < i ∧ i < cs.length - 1 then cs.take i else cs
  String.mk (keep ++ ['.', 'o', 'p', 'u', 's'])

/-- Models `(arcname / f.name).with_suffix('.opus')`: rewrite the last component
of the member name. -/
def with_suffix_opus : List Name → List Name
  | [] => []
  | [x] => [py_with_suffix_opus_name x]
  | x :: y :: rest => x :: with_suffix_opus (y :: rest)

/-- The events the `opus_adder` generator drives, in order.  A `tar.add`
call contributes a header event followed by a content event for the
member (unless the filter drops it, in which case it contributes
nothing). -/
inductive TarEvent where
  /-- Event for `subprocess.Popen(['opusenc', ...])` starting on a source file. -/
  | spawn_opusenc (src : List Name)
  /-- Event for `proc.wait()` returning: the subprocess exited with `exitCode` and
  its whole output is in the temporary spool file.  The source discards
  the returned code; it is recorded here so theorems can speak about
  it. -/
  | wait_opusenc (src : List Name) (exitCode : Nat)
  /-- Header block of an untranscoded member entering the stream. -/
  | direct_header (member : List Name)
  /-- Content bytes of an untranscoded member entering the stream. -/
  | direct_content (member : List Name)
  /-- Header block of a transcoded member (built from the spool of
  `src`) entering the stream. -/
  | transcoded_header (member : List Name) (src : List Name)
  /-- Content bytes of a transcoded member entering the stream. -/
  | transcoded_content (member : List Name) (src : List Name)
deriving DecidableEq

mutual
/-- Embeds `opus_adder` (app.py lines 215-245) as the list of events it
drives, paired with a flag that is true when the walk was cut short by an
unreadable directory (`PermissionError` from `iterdir()`).  `keep` is the
`TAR_FILTER` membership predicate (constantly true when the filter is
disabled), `exitc` gives the exit status `opusenc` would return for a
source file. -/
def opus_adder (keep : List Name → Bool) (exitc : List Name → Nat) :
    FSTree → List Name → List Name → List TarEvent × Bool
  | .file nm content, path, arc =>
    let src := path ++ [nm]
    if path_is_opusenc_encodable content then
      let m := with_suffix_opus (arc ++ [nm])
      ([TarEvent.spawn_opusenc src, TarEvent.wait_opusenc src (exitc src)] ++
        (if keep m then
          [TarEvent.transcoded_header m src, TarEvent.transcoded_content m src]
        else []), false)
    else
      let m := arc ++ [nm]
      ((if keep m then [TarEvent.direct_header m, TarEvent.direct_content m]
        else []), false)
  | .dir nm readable cs, path, arc =>
    if readable then opus_adder_forest keep exitc cs (path ++ [nm]) (arc ++ [nm])
    else ([], true)
/-- The loop `for f in sorted(path.iterdir())`: children in order, cut
short at the first aborted child. -/
def opus_adder_forest (keep : List Name → Bool) (exitc : List Name → Nat) :
    FSForest → List Name → List Name → List TarEvent × Bool
  | .nil, _, _ => ([], false)
  | .cons t rest, path, arc =>
    let r := opus_adder keep exitc t path arc
    if r.2 then (r.1, true)
    else
      let r2 := opus_adder_forest keep exitc rest path arc
      (r.1 ++ r2.1, r2.2)
end

/-- Records that `app.errorhandler(PermissionError)` (app.py line 48) maps a
permission failure to `werkzeug.exceptions.Forbidden`, HTTP 403. -/
def permission_error_http_status : Nat := 403

mutual
/-- A subtree contains a directory the walk would fail to read: either it
is itself unreadable, or a readable directory with a blocked child. -/
def hasBlockedDir : FSTree → Bool
  | .file _ _ => false
  | .dir _ readable cs => !readable || hasBlockedDirF cs
/-- Forest version of `hasBlockedDir`. -/
def hasBlockedDirF : FSForest → Bool
  | .nil => false
  | .cons t rest => hasBlockedDir t || hasBlockedDirF rest
end

/-- The set (as a list) of sources whose encoder run has completed, after
processing a list of events starting from `done`. -/
def doneAfter : List TarEvent → List (List Name) → List (List Name)
  | [], done => done
  | .wait_opusenc f _ :: evs, done => doneAfter evs (f :: done)
  | .spawn_opusenc _ :: evs, done => doneAfter evs done
  | .direct_header _ :: evs, done => doneAfter evs done
  | .direct_content _ :: evs, done => doneAfter evs done
  | .transcoded_header _ _ :: evs, done => doneAfter evs done
  | .transcoded_content _ _ :: evs, done => doneAfter evs done

/-- Temporal-safety check: scanning the events left to right, every
header or content event of a transcoded member must come after the
`wait` event of its source — that is, only once the encoder has exited
and its whole output is in the spool, so the member's size is no longer
provisional.  `done` holds the sources already waited for. -/
def spooledBeforeEmit : List TarEvent → List (List Name) → Bool
  | [], _ => true
  | .spawn_opusenc _ :: evs, done => spooledBeforeEmit evs done
  | .wait_opusenc f _ :: evs, done => spooledBeforeEmit evs (f :: done)
  | .direct_header _ :: evs, done => spooledBeforeEmit evs done
  | .direct_content _ :: evs, done => spooledBeforeEmit evs done
  | .transcoded_header _ f :: evs, done =>
      if f ∈ done then spooledBeforeEmit evs done else false
  | .transcoded_content _ f :: evs, done =>
      if f ∈ done then spooledBeforeEmit evs done else false

theorem spooledBeforeEmit_append (a b : List TarEvent)
    (done : List (List Name)) :
    spooledBeforeEmit (a ++ b) done =
      (spooledBeforeEmit a done && spooledBeforeEmit b (doneAfter a done)) := by
  induction a generalizing done with
  | nil => simp [spooledBeforeEmit, doneAfter]
  | cons x a ih =>
    cases x with
    | spawn_opusenc f => simp [spooledBeforeEmit, doneAfter, ih]
    | wait_opusenc f c => simp [spooledBeforeEmit, doneAfter, ih]
    | direct_header m => simp [spooledBeforeEmit, doneAfter, ih]
    | direct_content m => simp [spooledBeforeEmit, doneAfter, ih]
    | transcoded_header m f =>
      by_cases hf : f ∈ done <;>
        simp [spooledBeforeEmit, doneAfter, ih, hf, Bool.and_assoc]
    | transcoded_content m f =>
      by_cases hf : f ∈ done <;>
        simp [spooledBeforeEmit, doneAfter, ih, hf, Bool.and_assoc]

mutual
/-- Auxiliary to C5, generalised over the already-waited set. -/
theorem spooled_adder_aux (keep : List Name → Bool) (exitc : List Name → Nat) :
    ∀ (t : FSTree) (path arc : List Name) (done : List (List Name)),
      spooledBeforeEmit (opus_adder keep exitc t path arc).1 done = true
  | .file nm content, path, arc, done => by
    rw [opus_adder]
    by_cases he : path_is_opusenc_encodable content
    · by_cases hk : keep (with_suffix_opus (arc ++ [nm])) <;>
        simp [he, hk, spooledBeforeEmit, List.mem_cons]
    · by_cases hk : keep (arc ++ [nm]) <;> simp [he, hk, spooledBeforeEmit]
  | .dir nm readable cs, path, arc, done => by
    rw [opus_adder]
    by_cases hr : readable
    · simpa [hr] using
        spooled_forest_aux keep exitc cs (path ++ [nm]) (arc ++ [nm]) done
    · simp [hr, spooledBeforeEmit]
/-- Forest version of `spooled_adder_aux`. -/
theorem spooled_forest_aux (keep : List Name → Bool) (exitc : List Name → Nat) :
    ∀ (f : FSForest) (path arc : List Name) (done : List (List Name)),
      spooledBeforeEmit (opus_adder_forest keep exitc f path arc).1 done = true
  | .nil, _, _, done => rfl
  | .cons t rest, path, arc, done => by
    rw [opus_adder_forest]
    cases h2 : (opus_adder keep exitc t path arc).2
    · simp only [h2, Bool.false_eq_true, if_false]
      rw [spooledBeforeEmit_append]
      rw [spooled_adder_aux keep exitc t path arc done]
      rw [spooled_forest_aux keep exitc rest path arc
        (doneAfter (opus_adder keep exitc t path arc).1 done)]
      rfl
    · simp only [h2, if_true]
      exact spooled_adder_aux keep exitc t path arc done
end

/-!  ## C5 — encoder completes and is spooled before any member byte -/

/-- C5: in every walk of `opus_adder`, whatever the filter, the encoder
exit codes and the tree, every header or content event of a transcoded
member occurs only after the `wait` event of its source — the subprocess
has run to completion with its entire output spooled to the temporary
file before any byte of that member (header block included) enters the
archive stream, so no header is emitted while the member's size is
provisional. -/
theorem C5_spool_completed_before_emission (keep : List Name → Bool)
    (exitc : List Name → Nat) (t : FSTree) (path arc : List Name) :
    spooledBeforeEmit (opus_adder keep exitc t path arc).1 [] = true :=
  spooled_adder_aux keep exitc t path arc []

/-!  ## C6 — the encoder's exit status is never consulted -/

/-- Erase the recorded exit code from a `wait` event; two traces equal up
to `scrub_exit` drive identical archive bytes and differ at most in what
the ignored `proc.wait()` return value was. -/
def scrub_exit : TarEvent → TarEvent
  | .wait_opusenc f _ => .wait_opusenc f 0
  | e => e

mutual
/-- Auxiliary to C6: the trace of `opus_adder`, up to the recorded exit
codes, does not depend on the exit-status oracle. -/
theorem exit_ignored_adder (keep : List Name → Bool)
    (e1 e2 : List Name → Nat) :
    ∀ (t : FSTree) (path arc : List Name),
      (opus_adder keep e1 t path arc).1.map scrub_exit =
        (opus_adder keep e2 t path arc).1.map scrub_exit ∧
      (opus_adder keep e1 t path arc).2 = (opus_adder keep e2 t path arc).2
  | .file nm content, path, arc => by
    rw [opus_adder, opus_adder]
    by_cases he : path_is_opusenc_encodable content
    · by_cases hk : keep (with_suffix_opus (arc ++ [nm])) <;>
        simp [he, hk, scrub_exit]
    · by_cases hk : keep (arc ++ [nm]) <;> simp [he, hk]
  | .dir nm readable cs, path, arc => by
    rw [opus_adder, opus_adder]
    by_cases hr : readable
    · simpa [hr] using
        exit_ignored_forest keep e1 e2 cs (path ++ [nm]) (arc ++ [nm])
    · simp [hr]
/-- Forest version of `exit_ignored_adder`. -/
theorem exit_ignored_forest (keep : List Name → Bool)
    (e1 e2 : List Name → Nat) :
    ∀ (f : FSForest) (path arc : List Name),
      (opus_adder_forest keep e1 f path arc).1.map scrub_exit =
        (opus_adder_forest keep e2 f path arc).1.map scrub_exit ∧
      (opus_adder_forest keep e1 f path arc).2 =
        (opus_adder_forest keep e2 f path arc).2
  | .nil, _, _ => ⟨rfl, rfl⟩
  | .cons t rest, path, arc => by
    rw [opus_adder_forest, opus_adder_forest]
    have ht := exit_ignored_adder keep e1 e2 t path arc
    have hrest := exit_ignored_forest keep e1 e2 rest path arc
    rw [ht.2]
    cases h2 : (opus_adder keep e2 t path arc).2
    · simp only [h2, Bool.false_eq_true, if_false]
      simp [List.map_append, ht.1, hrest.1, hrest.2]
    · simp only [h2, if_true]
      exact ⟨ht.1, trivial⟩
end

/-- The tree for the C6 counterexample: a directory `d` holding one FLAC
file `a.flac` (its content begins with the `fLaC` magic, so it is
transcode-eligible). -/
def t6 : FSTree :=
  .dir "d" true (.cons (.file "a.flac" fLaC_sig) .nil)

/-- C6 counterexample: walking `t6` with an encoder that exits with
status 1 (failure), the member `d/a.opus` built from the failed run's
spool is still emitted into the archive — header and content follow the
`wait` that returned 1 — and nothing in the trace distinguishes failure:
the claim that the archive never silently contains a member built from a
non-zero encoder run is false of the code, which discards the result of
`proc.wait()`. -/
theorem C6_counterexample :
    (opus_adder (fun _ => true) (fun _ => 1) t6 [] []).1 =
      [TarEvent.spawn_opusenc ["d", "a.flac"],
       TarEvent.wait_opusenc ["d", "a.flac"] 1,
       TarEvent.transcoded_header ["d", "a.opus"] ["d", "a.flac"],
       TarEvent.transcoded_content ["d", "a.opus"] ["d", "a.flac"]] ∧
    (1 : Nat) ≠ 0 :=
  ⟨rfl, by decide⟩

/-- C6 amended: the subprocess is waited to completion before its member
is emitted (that is C5), but its exit status is ignored: the walk's
events — in particular every emitted header and content block — are
identical whatever exit status every encoder run returns, and the
abort flag likewise; no `TranscodeIncomplete` signalling exists. -/
theorem C6_exit_status_never_consulted (keep : List Name → Bool)
    (e1 e2 : List Name → Nat) (t : FSTree) (path arc : List Name) :
    (opus_adder keep e1 t path arc).1.map scrub_exit =
      (opus_adder keep e2 t path arc).1.map scrub_exit ∧
    (opus_adder keep e1 t path arc).2 = (opus_adder keep e2 t path arc).2 :=
  exit_ignored_adder keep e1 e2 t path arc

/-!  ## C7 — an unreadable subdirectory aborts the walk -/

mutual
/-- Auxiliary to C7: the walk is cut short exactly when the subtree
contains a directory that cannot be read. -/
theorem abort_iff_adder (keep : List Name → Bool) (exitc : List Name → Nat) :
    ∀ (t : FSTree) (path arc : List Name),
      (opus_adder keep exitc t path arc).2 = hasBlockedDir t
  | .file nm content, path, arc => by
    rw [opus_adder, hasBlockedDir]
    by_cases he : path_is_opusenc_encodable content <;> simp [he]
  | .dir nm readable cs, path, arc => by
    rw [opus_adder, hasBlockedDir]
    by_cases hr : readable
    · simpa [hr] using
        abort_iff_forest keep exitc cs (path ++ [nm]) (arc ++ [nm])
    · simp [hr]
/-- Forest version of `abort_iff_adder`. -/
theorem abort_iff_forest (keep : List Name → Bool) (exitc : List Name → Nat) :
    ∀ (f : FSForest) (path arc : List Name),
      (opus_adder_forest keep exitc f path arc).2 = hasBlockedDirF f
  | .nil, _, _ => rfl
  | .cons t rest, path, arc => by
    rw [opus_adder_forest, hasBlockedDirF]
    have ht := abort_iff_adder keep exitc t path arc
    cases h2 : (opus_adder keep exitc t path arc).2
    · rw [h2] at ht
      simp only [h2, Bool.false_eq_true, if_false, ← ht]
      simp [abort_iff_forest keep exitc rest path arc]
    · rw [h2] at ht
      simp [h2, ← ht]
end

/-- The tree for the C7 counterexample: `root` holds three
subdirectories in sorted order — readable `a` (with `x.txt`), unreadable
`b` (with `y.txt`), readable `c` (with `z.txt`). -/
def t7 : FSTree :=
  .dir "root" true
    (.cons (.dir "a" true (.cons (.file "x.txt" [1]) .nil))
      (.cons (.dir "b" false (.cons (.file "y.txt" [2]) .nil))
        (.cons (.dir "c" true (.cons (.file "z.txt" [3]) .nil)) .nil)))

/-- C7 counterexample: walking `t7`, the unreadable directory `b` does
not get skipped — the walk stops there: only `a`'s entry is yielded, the
later readable subtree `c` is never reached (its member appears nowhere
in the trace), and the walk ends aborted rather than succeeding. -/
theorem C7_counterexample :
    opus_adder (fun _ => true) (fun _ => 0) t7 [] [] =
      ([TarEvent.direct_header ["root", "a", "x.txt"],
        TarEvent.direct_content ["root", "a", "x.txt"]], true) ∧
    TarEvent.direct_header ["root", "c", "z.txt"] ∉
      (opus_adder (fun _ => true) (fun _ => 0) t7 [] []).1 :=
  ⟨rfl, by decide⟩

/-- C7 amended: a `PermissionError` on reading a subdirectory is not
recovered: the walk aborts exactly when the tree contains an unreadable
directory (events before that point are emitted, nothing after it), and
the application maps the propagated `PermissionError` to HTTP 403
Forbidden, so the request fails rather than succeeding without the
unreadable subtree. -/
theorem C7_unreadable_dir_aborts (keep : List Name → Bool)
    (exitc : List Name → Nat) (t : FSTree) (path arc : List Name) :
    (opus_adder keep exitc t path arc).2 = hasBlockedDir t ∧
    permission_error_http_status = 403 :=
  ⟨abort_iff_adder keep exitc t path arc, rfl⟩

/-!  ## C8 — the hidden-entry archive filter (`TAR_FILTER`, app.py 192-195) -/

/-- Embeds `TAR_FILTER` (the `exclude_hidden` branch):
`None if any(part.startswith('.') for part in Path(tarinfo.name).resolve().parts) else tarinfo`.
`tarinfo.name` is the member's relative archive name; `Path(...).resolve()`
on a relative path joins it onto the process working directory `cwd` and
resolves, so the scanned parts are those of the cwd-absolute form.  A
`RuntimeError` from `resolve` propagates (`Except.error`); otherwise the
result is `some name` (keep the member) or `none` (skip it entirely). -/
def TAR_FILTER (fs : FS) (fuel : Nat) (cwd : List Name)
    (tarinfoName : List Name) : Except Unit (Option (List Name)) :=
  match pyResolve fs fuel (cwd ++ tarinfoName) with
  | .error e => .error e
  | .ok r =>
    if r.any startsWithDot then .ok none else .ok (some tarinfoName)

/-- True of events that emit member bytes only when the filter keeps the
member: used to state that a skipped member contributes no bytes. -/
def eventKeeps (keep : List Name → Bool) : TarEvent → Bool
  | .direct_header m => keep m
  | .direct_content m => keep m
  | .transcoded_header m _ => keep m
  | .transcoded_content m _ => keep m
  | .spawn_opusenc _ => true
  | .wait_opusenc _ _ => true

mutual
/-- Auxiliary to C8: every member byte event in a walk is for a member
the filter keeps — a member the filter rejects contributes neither a
header nor content. -/
theorem filtered_adder_aux (keep : List Name → Bool) (exitc : List Name → Nat) :
    ∀ (t : FSTree) (path arc : List Name),
      (opus_adder keep exitc t path arc).1.all (eventKeeps keep) = true
  | .file nm content, path, arc => by
    rw [opus_adder]
    by_cases he : path_is_opusenc_encodable content
    · by_cases hk : keep (with_suffix_opus (arc ++ [nm])) <;>
        simp [he, hk, eventKeeps]
    · by_cases hk : keep (arc ++ [nm]) <;> simp [he, hk, eventKeeps]
  | .dir nm readable cs, path, arc => by
    rw [opus_adder]
    by_cases hr : readable
    · simpa [hr] using
        filtered_forest_aux keep exitc cs (path ++ [nm]) (arc ++ [nm])
    · simp [hr]
/-- Forest version of `filtered_adder_aux`. -/
theorem filtered_forest_aux (keep : List Name → Bool) (exitc : List Name → Nat) :
    ∀ (f : FSForest) (path arc : List Name),
      (opus_adder_forest keep exitc f path arc).1.all (eventKeeps keep) = true
  | .nil, _, _ => rfl
  | .cons t rest, path, arc => by
    rw [opus_adder_forest]
    cases h2 : (opus_adder keep exitc t path arc).2
    · simp only [h2, Bool.false_eq_true, if_false]
      simp [List.all_append, filtered_adder_aux keep exitc t path arc,
        filtered_forest_aux keep exitc rest path arc]
    · simp only [h2, if_true]
      exact filtered_adder_aux keep exitc t path arc
end

/-- C8 counterexample: the member name `music/song.flac` contains no
hidden component, yet with the server's working directory at
`/home/.local` the filter resolves it to `/home/.local/music/song.flac`
and skips it, while with working directory `/srv/work` it keeps it —
membership of a non-hidden entry depends on the process working
directory, contrary to the claim. -/
theorem C8_counterexample :
    TAR_FILTER (fun _ => none) 8 ["home", ".local"] ["music", "song.flac"] =
      .ok none ∧
    TAR_FILTER (fun _ => none) 8 ["srv", "work"] ["music", "song.flac"] =
      .ok (some ["music", "song.flac"]) ∧
    (["music", "song.flac"] : List Name).any startsWithDot = false :=
  ⟨rfl, rfl, rfl⟩

/-- C8 amended: with the filter enabled, a member is kept iff no
component of the cwd-resolved absolute form of its archive name begins
with `.` (so with a dot-free working directory, hidden entries and
everything under hidden directories are excluded — but membership does
depend on the server's working directory); and an excluded member
contributes no bytes at all to the stream: every header or content event
of a walk is for a member the filter keeps. -/
theorem C8_filter_on_cwd_resolved_parts (fs : FS) (fuel : Nat)
    (cwd nm r : List Name)
    (hres : pyResolve fs fuel (cwd ++ nm) = .ok r) :
    (TAR_FILTER fs fuel cwd nm = .ok (some nm) ↔
      r.any startsWithDot = false) ∧
    (TAR_FILTER fs fuel cwd nm = .ok none ↔ r.any startsWithDot = true) ∧
    (∀ (keep : List Name → Bool) (exitc : List Name → Nat)
        (t : FSTree) (path arc : List Name),
      (opus_adder keep exitc t path arc).1.all (eventKeeps keep) = true) := by
  refine ⟨?_, ?_, fun keep exitc t path arc =>
    filtered_adder_aux keep exitc t path arc⟩ <;>
  · unfold TAR_FILTER
    rw [hres]
    cases h : r.any startsWithDot <;> simp [h]

/-- C8 witness: the hidden member name `.hid/x` resolved from the
dot-free working directory `/srv` is skipped by the filter. -/
theorem C8_witness :
    TAR_FILTER (fun _ => none) 8 ["srv"] [".hid", "x"] = .ok none := by
  exact (C8_filter_on_cwd_resolved_parts (fun _ => none) 8 ["srv"]
    [".hid", "x"] ["srv", ".hid", "x"] rfl).2.1.mpr rfl

/-!  ## C9 — block alignment of produced archives

Modelled from the spec: the `tarfile_stream` module that `app.py` imports
(`tar.header()`, `tar.add(...)`, `tar.footer()`) is not among the
sources.  The spec fixes its format: members are built from 512-byte tar
blocks — one header block, then the content zero-padded to the next
512-byte boundary — `header()` emits no preamble for this streaming
POSIX-tar variant, and `footer()` emits the two-block all-zero trailer. -/

/-- One tar block is 512 bytes. -/
def BLOCKSIZE : Nat := 512

/-- An archive member as the encoder consumes it: the serialized header
fields (name and metadata bytes) and the content bytes. -/
structure TarMemberDesc where
  headerFields : List Nat
  content : List Nat

/-- Modelled from the spec: the member's 512-byte header block — the
serialized fields, truncated to the block and zero-padded to exactly
`BLOCKSIZE` bytes. -/
def header_block (d : TarMemberDesc) : List Nat :=
  d.headerFields.take 100 ++
    List.replicate (BLOCKSIZE - (d.headerFields.take 100).length) 0

/-- Zero padding bringing `n` content bytes to the next block boundary. -/
def pad_len (n : Nat) : Nat := (BLOCKSIZE - n % BLOCKSIZE) % BLOCKSIZE

/-- Modelled from the spec: the bytes `tar.add` emits for one member —
header block, content, padding. -/
def member_bytes (d : TarMemberDesc) : List Nat :=
  header_block d ++ d.content ++ List.replicate (pad_len d.content.length) 0

/-- Modelled from the spec: `tar.header()` — no preamble is required for
the streaming POSIX tar variant. -/
def stream_header : List Nat := []

/-- Modelled from the spec: `tar.footer()` — the two consecutive
all-zero blocks terminating the stream. -/
def stream_footer : List Nat := List.replicate (2 * BLOCKSIZE) 0

/-- Modelled from the spec: a complete archive as the `tar` route's
generator drains it — `header()`, each member, `footer()`. -/
def tar_stream (ms : List TarMemberDesc) : List Nat :=
  stream_header ++ ms.flatMap member_bytes ++ stream_footer

theorem header_block_length (d : TarMemberDesc) :
    (header_block d).length = 512 := by
  unfold header_block BLOCKSIZE
  have h : (d.headerFields.take 100).length ≤ 100 := by
    simp [List.length_take]
  rw [List.length_append, List.length_replicate]
  omega

theorem member_bytes_length_mod (d : TarMemberDesc) :
    (member_bytes d).length % 512 = 0 := by
  unfold member_bytes pad_len BLOCKSIZE
  rw [List.length_append, List.length_append, List.length_replicate,
    header_block_length d]
  omega

theorem flatMap_member_bytes_mod (ms : List TarMemberDesc) :
    (ms.flatMap member_bytes).length % 512 = 0 := by
  induction ms with
  | nil => rfl
  | cons d ms ih =>
    rw [List.flatMap_cons, List.length_append]
    have hd := member_bytes_length_mod d
    omega

/-- C9: every completely produced archive — preamble, members, trailer
fully drained — has a total byte count that is a multiple of 512 and
ends in 1024 zero bytes (the two-block trailer); and every prefix of the
stream consisting of the preamble and some number of complete members is
itself block-aligned, so a consumer abort between pulls leaves the
emitted bytes aligned up to the last completed block. -/
theorem C9_block_alignment (ms : List TarMemberDesc) :
    (tar_stream ms).length % 512 = 0 ∧
    (tar_stream ms).drop ((tar_stream ms).length - 1024) =
      List.replicate 1024 0 ∧
    (∀ k, ((ms.take k).flatMap member_bytes).length % 512 = 0) := by
  have hbody := flatMap_member_bytes_mod ms
  have hfootlen : stream_footer.length = 1024 := by
    unfold stream_footer BLOCKSIZE
    rw [List.length_replicate]
  have hlen : (tar_stream ms).length =
      (ms.flatMap member_bytes).length + 1024 := by
    show (stream_header ++ ms.flatMap member_bytes ++ stream_footer).length = _
    rw [List.length_append, List.length_append, hfootlen]
    have h1 : stream_header.length = 0 := rfl
    rw [h1]
    omega
  refine ⟨?_, ?_, fun k => flatMap_member_bytes_mod (ms.take k)⟩
  · rw [hlen]
    omega
  · have hfoot : stream_footer = List.replicate 1024 0 := by
      unfold stream_footer BLOCKSIZE
      norm_num
    have harch : tar_stream ms = ms.flatMap member_bytes ++ stream_footer := by
      unfold tar_stream stream_header
      simp
    rw [harch, hfoot]
    have hidx : (ms.flatMap member_bytes ++
        List.replicate 1024 (0 : Nat)).length - 1024 =
        (ms.flatMap member_bytes).length := by
      rw [List.length_append, List.length_replicate]
      omega
    rw [hidx, List.drop_left]

/-!  ## C10 — the `._opus` and `._hl` endpoints append the filename raw -/

/-- Embeds the path handling of the `opus` endpoint (app.py lines
247-263): the directory part comes through `SafePathConverter`, then
`path /= filename` with no further sandbox or hidden-component check;
opening a missing file raises `FileNotFoundError`, mapped to 404.
Whether the file is transcoded or served as-is, its bytes are served. -/
def opus_route (fs : FS) (fuel : Nat) (base : List Name)
    (excludeHidden : Bool) (value : List Name) (filename : Name) :
    Except SandboxError AbsPath :=
  match SafePathConverter_to_python fs fuel base excludeHidden value with
  | .error e => .error e
  | .ok p =>
    match fs (p ++ [filename]) with
    | none => .error .notFound
    | some _ => .ok (p ++ [filename])

/-- Embeds the path handling of the `highlight` endpoint (app.py lines
275-287): the directory part comes through `SafePathConverter`, then
`path /= filename` with no further check beyond `path.is_file()`
(`abort(404)` otherwise). -/
def highlight_route (fs : FS) (fuel : Nat) (base : List Name)
    (excludeHidden : Bool) (value : List Name) (filename : Name) :
    Except SandboxError AbsPath :=
  match SafePathConverter_to_python fs fuel base excludeHidden value with
  | .error e => .error e
  | .ok p =>
    match fs (p ++ [filename]) with
    | some .file => .ok (p ++ [filename])
    | _ => .error .notFound

/-- Sandbox root `/srv`, with directory `/srv/music` holding the hidden
regular file `/srv/music/.secret`. -/
def fsHiddenServed : FS := fun p =>
  if p = ["srv"] then some .dir
  else if p = ["srv", "music"] then some .dir
  else if p = ["srv", "music", ".secret"] then some .file
  else none

/-- C10: with the hidden-path policy enabled, a file named `.secret`
lying directly inside the allowed directory `music` is served by both
the standalone transcode endpoint and the syntax-highlight endpoint —
the final filename segment is appended after sandbox validation without
re-applying the hidden-entry policy, so neither endpoint rejects it with
`HiddenPathForbidden`. -/
theorem C10_filename_skips_hidden_policy :
    startsWithDot ".secret" = true ∧
    opus_route fsHiddenServed 8 ["srv"] true ["music"] ".secret" =
      .ok ["srv", "music", ".secret"] ∧
    highlight_route fsHiddenServed 8 ["srv"] true ["music"] ".secret" =
      .ok ["srv", "music", ".secret"] :=
  ⟨rfl, rfl, rfl⟩

end Dirserver
